import Mathlib

/-!
Shallow embedding of `pkg/commands/resolver.go`: per-file resolution
(`resolveFile`), the ordered resolution pipeline (`resolveFilesToWriter`),
and the watch-mode dependency callback passed to `graph.New`.

External collaborators (the yaml decoder/encoder, `labels.Parse`,
`resolve.MatchesSelector`, `resolve.ImageReferences`, the filesystem, stdin,
`graph.Add`, and the set of build invocations made by reference resolution)
are modelled as components of environment records; the control flow of the
two functions in `src/pkg/commands/resolver.go` is translated directly.

The coordinator loop of `resolveFilesToWriter` is modelled as a small-step
transition system driven by a schedule of events (a file arriving on `fs`,
a worker goroutine reaching its send/close point, the coordinator receiving
from the head future, an error arriving on `errCh`); universally quantifying
over schedules captures all interleavings of task completion.
-/

namespace Ko

/-- File identifiers are strings, as in the Go source. -/
abbrev FileId := String

/-- Resolved output blocks are byte strings. -/
abbrev Bytes := String

/-- Errors are represented by their messages. -/
abbrev Err := String

/-- Parsed yaml documents (yaml.Node values) are opaque. -/
abbrev Doc := Nat

/-- Parsed label selectors (labels.Selector values) are opaque. -/
abbrev Selector := Nat

/-- Environment of external collaborators consumed by resolveFile. -/
structure ResolveEnv where
  /-- so.Selector : the raw selector string from the options. -/
  selector : String
  /-- sto.Strict. -/
  strict : Bool
  /-- labels.Parse. -/
  parseSelector : String → Except Err Selector
  /-- ioutil.ReadAll(os.Stdin). -/
  stdin : Except Err Bytes
  /-- ioutil.ReadFile. -/
  readFile : FileId → Except Err Bytes
  /-- the yaml.Decoder loop: decode documents until io.EOF. -/
  decodeYaml : Bytes → Except Err (List Doc)
  /-- resolve.MatchesSelector. -/
  matchesSelector : Selector → Doc → Except Err Bool
  /-- resolve.ImageReferences: in the source it mutates the document nodes in
  place; modelled functionally as returning the mutated document list. -/
  imageReferences : Bool → List Doc → Except Err (List Doc)
  /-- the yaml.Encoder session: SetIndent argument, then Encode of each
  document into one buffer, Close. -/
  encodeYaml : Nat → List Doc → Except Err Bytes

/-- Lines 328-336 of resolver.go: if so.Selector is non-empty, parse it;
a parse failure is wrapped as "unable to parse selector: ...". -/
def parseSelectorOpt (env : ResolveEnv) : Except Err (Option Selector) :=
  if env.selector = "" then Except.ok none
  else
    match env.parseSelector env.selector with
    | Except.error e => Except.error ("unable to parse selector: " ++ e)
    | Except.ok s => Except.ok (some s)

/-- Lines 338-345 of resolver.go: the identifier "-" reads stdin, any other
identifier reads the file at that path. -/
def readContent (env : ResolveEnv) (f : FileId) : Except Err Bytes :=
  if f = "-" then env.stdin else env.readFile f

/-- Lines 353-372 of resolver.go: the decode loop's selector filtering.
With no selector every document is kept; with a selector, a document is kept
iff MatchesSelector returns true, a selector-evaluation error aborts the
file with "error evaluating selector: ...". -/
def filterBySelector (env : ResolveEnv) (sel : Option Selector) :
    List Doc → Except Err (List Doc)
  | [] => Except.ok []
  | d :: rest =>
    match sel with
    | none =>
      match filterBySelector env none rest with
      | Except.error e => Except.error e
      | Except.ok tail => Except.ok (d :: tail)
    | some s =>
      match env.matchesSelector s d with
      | Except.error e => Except.error ("error evaluating selector: " ++ e)
      | Except.ok true =>
        match filterBySelector env (some s) rest with
        | Except.error e => Except.error e
        | Except.ok tail => Except.ok (d :: tail)
      | Except.ok false => filterBySelector env (some s) rest

/-- Lines 320-391 of resolver.go: resolveFile. Parse the selector, read the
content, decode the documents, filter by the selector, resolve image
references in the surviving documents, and serialize them with 2-space
indentation. The decoder loop is modelled as whole-input decoding. -/
def resolveFile (env : ResolveEnv) (f : FileId) : Except Err Bytes :=
  match parseSelectorOpt env with
  | Except.error e => Except.error e
  | Except.ok sel =>
    match readContent env f with
    | Except.error e => Except.error e
    | Except.ok b =>
      match env.decodeYaml b with
      | Except.error e => Except.error e
      | Except.ok docs =>
        match filterBySelector env sel docs with
        | Except.error e => Except.error e
        | Except.ok docNodes =>
          match env.imageReferences env.strict docNodes with
          | Except.error e =>
            Except.error ("error resolving image references: " ++ e)
          | Except.ok resolved =>
            match env.encodeYaml 2 resolved with
            | Except.error e =>
              Except.error ("failed to encode output: " ++ e)
            | Except.ok out => Except.ok out

/-- Environment of the pipeline: the resolution environment plus the build
invocations observed by the per-task build.Recorder and the g.Add results. -/
structure PipeEnv where
  renv : ResolveEnv
  /-- the sequence of target keys passed to Build while resolving a given
  file (the invocations resolve.ImageReferences actually makes). -/
  buildCalls : FileId → List String
  /-- g.Add on one import path. -/
  graphAdd : String → Except Err Unit

/-- Modelled from the spec: build.Recorder (the Target Recorder of section
4.2), whose source is not under src/. Every key passed to Build during one
resolution task is appended to a task-scoped ordered set: insertion order,
duplicates removed. -/
def recordedKeys (seen : List String) : List String → List String
  | [] => []
  | k :: rest =>
    if seen.contains k then recordedKeys seen rest
    else k :: recordedKeys (k :: seen) rest

/-- The recordingBuilder.ImportPaths value for one file: the recorded,
deduplicated sequence of build invocations made while resolving it. -/
def importPathsOf (env : PipeEnv) (f : FileId) : List String :=
  recordedKeys [] (env.buildCalls f)

/-- Lines 280-293 of resolver.go: g.Add over every recorded import path,
wrapping a failure as "adding importpath to dep graph: ...". -/
def graphAddAll (env : PipeEnv) : List String → Except Err Unit
  | [] => Except.ok ()
  | ip :: rest =>
    match env.graphAdd ip with
    | Except.error e => Except.error ("adding importpath to dep graph: " ++ e)
    | Except.ok _ => graphAddAll env rest

/-- Line 270 of resolver.go: the per-file error wrapper. -/
def wrapErr (f : FileId) (e : Err) : Err :=
  "error processing import paths in \"" ++ f ++ "\": " ++ e

/-- sync.Map.Store on the filename-to-import-paths map, modelled on an
association list: replace the binding if present, else append. -/
def smStore (m : List (FileId × List String)) (f : FileId) (v : List String) :
    List (FileId × List String) :=
  match m with
  | [] => [(f, v)]
  | (k, w) :: rest => if k = f then (f, v) :: rest else (k, w) :: smStore rest f v

/-- sync.Map.Load, modelled on the association list. -/
def smLookup (m : List (FileId × List String)) (f : FileId) :
    Option (List String) :=
  match m with
  | [] => none
  | (k, w) :: rest => if k = f then some w else smLookup rest f

/-- A resolvedFuture (chan []byte) together with what its goroutine has done:
pending means the task has not yet reached its send/close point; ready f res
means the channel will deliver res (some b when a value was sent, none when
the channel was closed without a value, i.e. the task errored). -/
inductive Fut where
  | pending (file : FileId)
  | ready (file : FileId) (res : Option Bytes)
deriving DecidableEq, Repr

/-- The file a future was created for. -/
def futFile : Fut → FileId
  | Fut.pending f => f
  | Fut.ready f _ => f

/-- The file of a future whose task has completed, if so. -/
def readyFile : Fut → Option FileId
  | Fut.pending _ => none
  | Fut.ready f _ => some f

/-- State of one run of the coordinator loop of resolveFilesToWriter. -/
structure PState where
  /-- identifiers still to be produced by the fs channel. -/
  pending : List FileId
  /-- whether the coordinator still holds a non-nil fs channel (line 248
  sets fs to nil once the channel is closed). -/
  fsOpen : Bool
  /-- the ordered list of futures (line 225). -/
  futures : List Fut
  /-- files whose head future has been dequeued, in dequeue order. -/
  dq : List FileId
  /-- the byte blocks written to out, one list entry per out.Write call. -/
  output : List Bytes
  /-- the sync.Map tracking filename to import paths (line 190). -/
  sm : List (FileId × List String)
  /-- errors returned to the errgroup by task goroutines, in the order they
  were observed; errs.Wait() returns the first. -/
  taskErrs : List Err
  /-- errors printed by log.Print in watch mode. -/
  logged : List Err
  /-- errors sent on errCh. -/
  errCh : List Err
deriving DecidableEq, Repr

/-- Initial state of a run over a list of enumerated files. -/
def initState (files : List FileId) : PState :=
  { pending := files, fsOpen := true, futures := [], dq := [], output := [],
    sm := [], taskErrs := [], logged := [], errCh := [] }

/-- Scheduler events: the select case receiving a file from fs, a worker
goroutine running to its send/close point, the select case receiving from
the head future, and the select case receiving from errCh. -/
inductive Ev where
  | recv
  | taskDone (i : Nat)
  | deq
  | werr
deriving DecidableEq, Repr

/-- Result of one step: the loop continues in a new state, or returns early
(the errCh case at lines 310-311). -/
inductive StepOut where
  | cont (s : PState)
  | ret (e : Err)
deriving DecidableEq, Repr

/-- One transition of the coordinator loop plus worker goroutines
(lines 226-313 of resolver.go). Returns none when the event is not enabled
in the given state (that select case cannot fire / no such task can run). -/
def step (env : PipeEnv) (watch : Bool) (s : PState) : Ev → Option StepOut
  | Ev.recv =>
    -- case file, ok := <-fs (lines 242-295): selectable only while fs is
    -- non-nil; delivers a value when the enumerator has one, or closes.
    -- In watch mode the channel stays open forever (line 186).
    if s.fsOpen then
      match s.pending with
      | f :: rest =>
        some (StepOut.cont { s with
          pending := rest,
          futures := s.futures ++ [Fut.pending f] })
      | [] =>
        if watch then none
        else some (StepOut.cont { s with fsOpen := false })
    else none
  | Ev.taskDone i =>
    -- the goroutine of lines 260-295 runs resolveFile and reaches its
    -- send (line 279) or its deferred close (line 261).
    match s.futures[i]? with
    | some (Fut.pending f) =>
      match resolveFile env.renv f with
      | Except.error e =>
        -- lines 267-276: wrap the error; in watch mode log it and return
        -- nil, otherwise return it to the errgroup.
        if watch then
          some (StepOut.cont { s with
            futures := s.futures.set i (Fut.ready f none),
            logged := s.logged ++ [wrapErr f e] })
        else
          some (StepOut.cont { s with
            futures := s.futures.set i (Fut.ready f none),
            taskErrs := s.taskErrs ++ [wrapErr f e] })
      | Except.ok b =>
        -- lines 277-279: record the import paths, then block sending b.
        some (StepOut.cont { s with
          sm := smStore s.sm f (importPathsOf env f),
          futures := s.futures.set i (Fut.ready f (some b)) })
    | _ => none
  | Ev.deq =>
    -- case b, ok := <-bf (lines 297-308): selectable only when futures is
    -- non-empty (else bf is nil, lines 232-234) and the head task has
    -- reached its send or close.
    match s.futures with
    | Fut.ready f res :: rest =>
      match res with
      | some b =>
        -- ok: write the block and the trailing delimiter (line 307); the
        -- sender then finishes lines 280-294 (g.Add in watch mode).
        let s1 : PState := { s with
          futures := rest, dq := s.dq ++ [f],
          output := s.output ++ [b ++ "\n---\n"] }
        if watch then
          match graphAddAll env (importPathsOf env f) with
          | Except.error e =>
            some (StepOut.cont { s1 with
              errCh := s1.errCh ++ [e],
              taskErrs := s1.taskErrs ++ [e] })
          | Except.ok _ => some (StepOut.cont s1)
        else some (StepOut.cont s1)
      | none =>
        -- not ok: the channel was closed without a value; dequeue, write
        -- nothing.
        some (StepOut.cont { s with futures := rest, dq := s.dq ++ [f] })
    | _ => none
  | Ev.werr =>
    -- case err := <-errCh (lines 310-311): return immediately.
    match s.errCh with
    | e :: _ => some (StepOut.ret ("watching dependencies: " ++ e))
    | [] => none

/-- Whether the loop's exit condition at lines 235-239 holds: no futures
remain and fs has been set to nil. -/
def atEnd (s : PState) : Bool := s.futures.isEmpty && !s.fsOpen

/-- Result of running the loop under a finite schedule: the function
returned (with the value of errs.Wait() or the early watch error), or the
schedule is exhausted with the loop still running. -/
inductive RunResult where
  | finished (ret : Option Err) (s : PState)
  | running (s : PState)
deriving DecidableEq, Repr

/-- The coordinator loop (lines 226-317): before each wait, break if the
futures are drained and fs is nil, in which case errs.Wait() returns the
first task error; otherwise take the next enabled event of the schedule. -/
def runLoop (env : PipeEnv) (watch : Bool) : PState → List Ev → RunResult
  | s, [] =>
    if atEnd s then RunResult.finished s.taskErrs.head? s
    else RunResult.running s
  | s, e :: rest =>
    if atEnd s then RunResult.finished s.taskErrs.head? s
    else
      match step env watch s e with
      | none => runLoop env watch s rest
      | some (StepOut.cont s') => runLoop env watch s' rest
      | some (StepOut.ret err) => RunResult.finished (some err) s

/-- resolveFilesToWriter (lines 173-318), as a run of the coordinator loop
from the enumerated file list under a schedule of events. -/
def resolveFilesToWriter (env : PipeEnv) (watch : Bool) (files : List FileId)
    (evs : List Ev) : RunResult :=
  runLoop env watch (initState files) evs

/-- The state reached by a run. -/
def stateOf : RunResult → PState
  | RunResult.finished _ s => s
  | RunResult.running s => s

/-- The value returned by a finished run (none while still running). -/
def retOf : RunResult → Option (Option Err)
  | RunResult.finished ret _ => some ret
  | RunResult.running _ => none

/-- The block resolveFilesToWriter writes for a file, when its resolution
succeeds: the resolved bytes followed by the delimiter of line 307. -/
def blockOf (env : PipeEnv) (f : FileId) : Option Bytes :=
  match resolveFile env.renv f with
  | Except.ok b => some (b ++ "\n---\n")
  | Except.error _ => none

/-- The files whose identifiers the coordinator has consumed from fs, in
consumption order. -/
def consumedFiles (s : PState) : List FileId := s.dq ++ s.futures.map futFile

/-- The files whose tasks have reached their send/close point. -/
def doneFiles (s : PState) : List FileId :=
  s.dq ++ s.futures.filterMap readyFile

/-- A file whose resolution succeeds. -/
def resolvedOk (env : PipeEnv) (f : FileId) : Prop :=
  ∃ b, resolveFile env.renv f = Except.ok b

/-- The watch-mode dependency callback of lines 199-213, inner loop: for
one recorded (file, import paths) entry, invalidate every import path in
the changed set and resend the filename for each hit. Returns the
Invalidate calls and the fs sends, in order. -/
def cbFile (ss : List String) (k : FileId) :
    List String → List String × List FileId
  | [] => ([], [])
  | ip :: rest =>
    if ss.contains ip then
      (ip :: (cbFile ss k rest).1, k :: (cbFile ss k rest).2)
    else cbFile ss k rest

/-- The watch-mode dependency callback of lines 199-213: range over the
filename-to-import-paths map, handling each entry with cbFile. Returns the
builder.Invalidate calls and the fs sends, in order. -/
def watchCallback (ss : List String) :
    List (FileId × List String) → List String × List FileId
  | [] => ([], [])
  | (k, v) :: rest =>
    ((cbFile ss k v).1 ++ (watchCallback ss rest).1,
      (cbFile ss k v).2 ++ (watchCallback ss rest).2)

/-- The event sources the select statement at lines 241-312 waits on in a
given state: fs when non-nil, the head future when futures is non-empty
(lines 232-234), and errCh, which is non-nil only in watch mode (line 193,
lines 195-219). -/
inductive Src where
  | fsSrc
  | headSrc
  | errSrc
deriving DecidableEq, Repr

/-- The set of sources the coordinator's select waits on. -/
def selectSources (watch : Bool) (s : PState) : List Src :=
  (if s.fsOpen then [Src.fsSrc] else []) ++
    (if s.futures.isEmpty then [] else [Src.headSrc]) ++
      (if watch then [Src.errSrc] else [])

/-- The successful value of a resolution, if any. -/
def okPart : Except Err Bytes → Option Bytes
  | Except.ok b => some b
  | Except.error _ => none

/-- Consistency of a future with the deterministic per-file resolution: a
completed task delivered exactly the successful resolution value (some b on
success, channel closed without a value on error). -/
def futOk (env : PipeEnv) : Fut → Prop
  | Fut.pending _ => True
  | Fut.ready f res => res = okPart (resolveFile env.renv f)

/-- Invariant of the coordinator loop, relating a reachable state to the
initial file list. -/
structure Inv (env : PipeEnv) (watch : Bool) (files : List FileId)
    (s : PState) : Prop where
  out_eq : s.output = s.dq.filterMap (blockOf env)
  futs_ok : ∀ fut ∈ s.futures, futOk env fut
  files_eq : files = consumedFiles s ++ s.pending
  closed_pending : s.fsOpen = false → s.pending = []
  errs_clear : watch = false → s.taskErrs = [] →
    ∀ f ∈ doneFiles s, resolvedOk env f

theorem blockOf_ok {env : PipeEnv} {f : FileId} {b : Bytes}
    (h : resolveFile env.renv f = Except.ok b) :
    blockOf env f = some (b ++ "\n---\n") := by
  simp [blockOf, h]

theorem blockOf_err {env : PipeEnv} {f : FileId} {e : Err}
    (h : resolveFile env.renv f = Except.error e) :
    blockOf env f = none := by
  simp [blockOf, h]

theorem mem_set_elim {α : Type} {l : List α} {i : Nat} {b a : α}
    (h : a ∈ l.set i b) : a ∈ l ∨ a = b := by
  induction l generalizing i with
  | nil => simp [List.set] at h
  | cons x xs ih =>
    cases i with
    | zero =>
      simp only [List.set, List.mem_cons] at h
      rcases h with h | h
      · exact Or.inr h
      · exact Or.inl (List.mem_cons_of_mem _ h)
    | succ n =>
      simp only [List.set, List.mem_cons] at h
      rcases h with h | h
      · exact Or.inl (h ▸ List.mem_cons_self _ _)
      · rcases ih h with h1 | h1
        · exact Or.inl (List.mem_cons_of_mem _ h1)
        · exact Or.inr h1

theorem map_futFile_set {l : List Fut} {i : Nat} {f : FileId} {r : Option Bytes}
    (h : l[i]? = some (Fut.pending f)) :
    (l.set i (Fut.ready f r)).map futFile = l.map futFile := by
  induction l generalizing i with
  | nil => simp at h
  | cons x xs ih =>
    cases i with
    | zero =>
      simp only [List.getElem?_cons_zero, Option.some.injEq] at h
      subst h
      simp [List.set, futFile]
    | succ n =>
      simp only [List.getElem?_cons_succ] at h
      simp [List.set, ih h]

theorem filterMap_readyFile_set {l : List Fut} {i : Nat} {f : FileId}
    {r : Option Bytes} {a : FileId}
    (ha : a ∈ (l.set i (Fut.ready f r)).filterMap readyFile) :
    a ∈ l.filterMap readyFile ∨ a = f := by
  rcases List.mem_filterMap.mp ha with ⟨fut, hmem, hr⟩
  rcases mem_set_elim hmem with h1 | h1
  · exact Or.inl (List.mem_filterMap.mpr ⟨fut, h1, hr⟩)
  · subst h1
    simp only [readyFile, Option.some.injEq] at hr
    exact Or.inr hr.symm

theorem atEnd_iff {s : PState} :
    atEnd s = true ↔ s.futures = [] ∧ s.fsOpen = false := by
  cases hf : s.futures <;> cases ho : s.fsOpen <;> simp [atEnd, hf, ho]


theorem step_recv_consume {env : PipeEnv} {watch : Bool} {s : PState}
    {f : FileId} {rest : List FileId}
    (hfs : s.fsOpen = true) (hp : s.pending = f :: rest) :
    step env watch s Ev.recv = some (StepOut.cont { s with
      pending := rest, futures := s.futures ++ [Fut.pending f] }) := by
  simp [step, hfs, hp]

theorem step_recv_close {env : PipeEnv} {s : PState}
    (hfs : s.fsOpen = true) (hp : s.pending = []) :
    step env false s Ev.recv = some (StepOut.cont { s with fsOpen := false }) := by
  simp [step, hfs, hp]

theorem step_recv_watch_empty {env : PipeEnv} {s : PState}
    (hfs : s.fsOpen = true) (hp : s.pending = []) :
    step env true s Ev.recv = none := by
  simp [step, hfs, hp]

theorem step_recv_closed {env : PipeEnv} {watch : Bool} {s : PState}
    (hfs : s.fsOpen = false) :
    step env watch s Ev.recv = none := by
  simp [step, hfs]

theorem step_taskDone_missing {env : PipeEnv} {watch : Bool} {s : PState}
    {i : Nat} (hget : s.futures[i]? = none) :
    step env watch s (Ev.taskDone i) = none := by
  simp [step, hget]

theorem step_taskDone_ready {env : PipeEnv} {watch : Bool} {s : PState}
    {i : Nat} {f : FileId} {r : Option Bytes}
    (hget : s.futures[i]? = some (Fut.ready f r)) :
    step env watch s (Ev.taskDone i) = none := by
  simp [step, hget]

theorem step_taskDone_err_watch {env : PipeEnv} {s : PState} {i : Nat}
    {f : FileId} {e : Err}
    (hget : s.futures[i]? = some (Fut.pending f))
    (hrf : resolveFile env.renv f = Except.error e) :
    step env true s (Ev.taskDone i) = some (StepOut.cont { s with
      futures := s.futures.set i (Fut.ready f none),
      logged := s.logged ++ [wrapErr f e] }) := by
  simp [step, hget, hrf]

theorem step_taskDone_err_oneshot {env : PipeEnv} {s : PState} {i : Nat}
    {f : FileId} {e : Err}
    (hget : s.futures[i]? = some (Fut.pending f))
    (hrf : resolveFile env.renv f = Except.error e) :
    step env false s (Ev.taskDone i) = some (StepOut.cont { s with
      futures := s.futures.set i (Fut.ready f none),
      taskErrs := s.taskErrs ++ [wrapErr f e] }) := by
  simp [step, hget, hrf]

theorem step_taskDone_ok {env : PipeEnv} {watch : Bool} {s : PState} {i : Nat}
    {f : FileId} {b : Bytes}
    (hget : s.futures[i]? = some (Fut.pending f))
    (hrf : resolveFile env.renv f = Except.ok b) :
    step env watch s (Ev.taskDone i) = some (StepOut.cont { s with
      sm := smStore s.sm f (importPathsOf env f),
      futures := s.futures.set i (Fut.ready f (some b)) }) := by
  simp [step, hget, hrf]

theorem step_deq_nil {env : PipeEnv} {watch : Bool} {s : PState}
    (hfut : s.futures = []) :
    step env watch s Ev.deq = none := by
  simp [step, hfut]

theorem step_deq_pending {env : PipeEnv} {watch : Bool} {s : PState}
    {f : FileId} {rest : List Fut}
    (hfut : s.futures = Fut.pending f :: rest) :
    step env watch s Ev.deq = none := by
  simp [step, hfut]

theorem step_deq_some_oneshot {env : PipeEnv} {s : PState}
    {f : FileId} {b : Bytes} {rest : List Fut}
    (hfut : s.futures = Fut.ready f (some b) :: rest) :
    step env false s Ev.deq = some (StepOut.cont { s with
      futures := rest, dq := s.dq ++ [f],
      output := s.output ++ [b ++ "\n---\n"] }) := by
  simp [step, hfut]

theorem step_deq_some_watch_ok {env : PipeEnv} {s : PState}
    {f : FileId} {b : Bytes} {rest : List Fut} {u : Unit}
    (hfut : s.futures = Fut.ready f (some b) :: rest)
    (hga : graphAddAll env (importPathsOf env f) = Except.ok u) :
    step env true s Ev.deq = some (StepOut.cont { s with
      futures := rest, dq := s.dq ++ [f],
      output := s.output ++ [b ++ "\n---\n"] }) := by
  simp [step, hfut, hga]

theorem step_deq_some_watch_err {env : PipeEnv} {s : PState}
    {f : FileId} {b : Bytes} {rest : List Fut} {e : Err}
    (hfut : s.futures = Fut.ready f (some b) :: rest)
    (hga : graphAddAll env (importPathsOf env f) = Except.error e) :
    step env true s Ev.deq = some (StepOut.cont { s with
      futures := rest, dq := s.dq ++ [f],
      output := s.output ++ [b ++ "\n---\n"],
      taskErrs := s.taskErrs ++ [e],
      errCh := s.errCh ++ [e] }) := by
  simp [step, hfut, hga]

theorem step_deq_none {env : PipeEnv} {watch : Bool} {s : PState}
    {f : FileId} {rest : List Fut}
    (hfut : s.futures = Fut.ready f none :: rest) :
    step env watch s Ev.deq = some (StepOut.cont { s with
      futures := rest, dq := s.dq ++ [f] }) := by
  simp [step, hfut]

theorem step_werr_cons {env : PipeEnv} {watch : Bool} {s : PState}
    {e : Err} {t : List Err} (hch : s.errCh = e :: t) :
    step env watch s Ev.werr = some (StepOut.ret ("watching dependencies: " ++ e)) := by
  simp [step, hch]

theorem step_werr_nil {env : PipeEnv} {watch : Bool} {s : PState}
    (hch : s.errCh = []) :
    step env watch s Ev.werr = none := by
  simp [step, hch]

/-- One coordinator/worker step preserves the loop invariant. -/
theorem step_inv {env : PipeEnv} {watch : Bool} {files : List FileId}
    {s s' : PState} {e : Ev}
    (hI : Inv env watch files s)
    (h : step env watch s e = some (StepOut.cont s')) :
    Inv env watch files s' := by
  obtain ⟨hout, hfuts, hfiles, hclosed, herrs⟩ := hI
  cases e with
  | recv =>
    cases hfs : s.fsOpen with
    | false =>
      rw [step_recv_closed hfs] at h
      exact Option.noConfusion h
    | true =>
      cases hp : s.pending with
      | nil =>
        cases watch with
        | true =>
          rw [step_recv_watch_empty hfs hp] at h
          exact Option.noConfusion h
        | false =>
          rw [step_recv_close hfs hp] at h
          simp only [Option.some.injEq, StepOut.cont.injEq] at h
          subst h
          exact ⟨hout, hfuts, by simpa [consumedFiles, hp] using hfiles,
            fun _ => hp, herrs⟩
      | cons f rest =>
        rw [step_recv_consume hfs hp] at h
        simp only [Option.some.injEq, StepOut.cont.injEq] at h
        subst h
        refine ⟨hout, ?_, ?_, ?_, ?_⟩
        · intro fut hmem
          rcases List.mem_append.mp hmem with h1 | h1
          · exact hfuts fut h1
          · simp only [List.mem_singleton] at h1
            subst h1; trivial
        · rw [hfiles, hp]
          simp [consumedFiles, futFile, List.append_assoc]
        · intro hfo
          rw [hfs] at hfo
          exact Bool.noConfusion hfo
        · intro hw ht f0 hf0
          refine herrs hw ht f0 ?_
          simpa [doneFiles, List.filterMap_append, readyFile] using hf0
  | taskDone i =>
    cases hget : s.futures[i]? with
    | none =>
      rw [step_taskDone_missing hget] at h
      exact Option.noConfusion h
    | some fut =>
      cases fut with
      | ready f r =>
        rw [step_taskDone_ready hget] at h
        exact Option.noConfusion h
      | pending f =>
        cases hrf : resolveFile env.renv f with
        | error e0 =>
          cases watch with
          | true =>
            rw [step_taskDone_err_watch hget hrf] at h
            simp only [Option.some.injEq, StepOut.cont.injEq] at h
            subst h
            refine ⟨hout, ?_, ?_, hclosed, ?_⟩
            · intro fut hmem
              rcases mem_set_elim hmem with h1 | h1
              · exact hfuts fut h1
              · subst h1; simp [futOk, okPart, hrf]
            · simpa [consumedFiles, map_futFile_set hget] using hfiles
            · intro hw
              exact Bool.noConfusion hw
          | false =>
            rw [step_taskDone_err_oneshot hget hrf] at h
            simp only [Option.some.injEq, StepOut.cont.injEq] at h
            subst h
            refine ⟨hout, ?_, ?_, hclosed, ?_⟩
            · intro fut hmem
              rcases mem_set_elim hmem with h1 | h1
              · exact hfuts fut h1
              · subst h1; simp [futOk, okPart, hrf]
            · simpa [consumedFiles, map_futFile_set hget] using hfiles
            · intro _ ht
              simp at ht
        | ok b =>
          rw [step_taskDone_ok hget hrf] at h
          simp only [Option.some.injEq, StepOut.cont.injEq] at h
          subst h
          refine ⟨hout, ?_, ?_, hclosed, ?_⟩
          · intro fut hmem
            rcases mem_set_elim hmem with h1 | h1
            · exact hfuts fut h1
            · subst h1; simp [futOk, okPart, hrf]
          · simpa [consumedFiles, map_futFile_set hget] using hfiles
          · intro hw ht f0 hf0
            simp only [doneFiles, List.mem_append] at hf0
            rcases hf0 with h1 | h1
            · exact herrs hw ht f0 (List.mem_append.mpr (Or.inl h1))
            · rcases filterMap_readyFile_set h1 with h2 | h2
              · exact herrs hw ht f0 (List.mem_append.mpr (Or.inr h2))
              · subst h2; exact ⟨b, hrf⟩
  | deq =>
    cases hfut : s.futures with
    | nil =>
      rw [step_deq_nil hfut] at h
      exact Option.noConfusion h
    | cons fut rest =>
      cases fut with
      | pending f =>
        rw [step_deq_pending hfut] at h
        exact Option.noConfusion h
      | ready f res =>
        have hhead : futOk env (Fut.ready f res) :=
          hfuts _ (by rw [hfut]; exact List.mem_cons_self _ _)
        simp only [futOk] at hhead
        have hrest : ∀ fu ∈ rest, futOk env fu := fun fu hm =>
          hfuts fu (by rw [hfut]; exact List.mem_cons_of_mem _ hm)
        have hmapf : s.futures.map futFile = f :: rest.map futFile := by
          rw [hfut]; simp [futFile]
        have hdonef : s.futures.filterMap readyFile =
            f :: rest.filterMap readyFile := by
          rw [hfut]; simp [readyFile]
        have hfiles' : files = ((s.dq ++ [f]) ++ rest.map futFile) ++ s.pending := by
          rw [hfiles]
          simp [consumedFiles, hmapf, List.append_assoc]
        have hdone' : ∀ f0, f0 ∈ (s.dq ++ [f]) ++ rest.filterMap readyFile →
            f0 ∈ doneFiles s := by
          intro f0 h0
          simp only [doneFiles, hdonef, List.mem_append, List.mem_cons,
            List.mem_singleton] at h0 ⊢
          tauto
        cases res with
        | some b =>
          have hok : resolveFile env.renv f = Except.ok b := by
            cases hrf : resolveFile env.renv f with
            | error e0 => rw [hrf] at hhead; simp [okPart] at hhead
            | ok c =>
              rw [hrf] at hhead
              simp only [okPart, Option.some.injEq] at hhead
              rw [hhead]
          have hout' : s.output ++ [b ++ "\n---\n"] =
              (s.dq ++ [f]).filterMap (blockOf env) := by
            simp [List.filterMap_append, hout, blockOf_ok hok]
          cases watch with
          | false =>
            rw [step_deq_some_oneshot hfut] at h
            simp only [Option.some.injEq, StepOut.cont.injEq] at h
            subst h
            exact ⟨hout', hrest, hfiles', hclosed,
              fun hw ht f0 h0 => herrs hw ht f0 (hdone' f0 h0)⟩
          | true =>
            cases hga : graphAddAll env (importPathsOf env f) with
            | ok u =>
              rw [step_deq_some_watch_ok hfut hga] at h
              simp only [Option.some.injEq, StepOut.cont.injEq] at h
              subst h
              exact ⟨hout', hrest, hfiles', hclosed,
                fun hw => Bool.noConfusion hw⟩
            | error eg =>
              rw [step_deq_some_watch_err hfut hga] at h
              simp only [Option.some.injEq, StepOut.cont.injEq] at h
              subst h
              exact ⟨hout', hrest, hfiles', hclosed,
                fun hw => Bool.noConfusion hw⟩
        | none =>
          have hnone : blockOf env f = none := by
            cases hrf : resolveFile env.renv f with
            | error e0 => exact blockOf_err hrf
            | ok c => rw [hrf] at hhead; simp [okPart] at hhead
          rw [step_deq_none hfut] at h
          simp only [Option.some.injEq, StepOut.cont.injEq] at h
          subst h
          refine ⟨?_, hrest, hfiles', hclosed,
            fun hw ht f0 h0 => herrs hw ht f0 (hdone' f0 h0)⟩
          simp [List.filterMap_append, hout, hnone]
  | werr =>
    cases hch : s.errCh with
    | nil =>
      rw [step_werr_nil hch] at h
      exact Option.noConfusion h
    | cons e0 t =>
      rw [step_werr_cons hch] at h
      simp at h

/-- A step only returns early with the wrapped head of errCh (the watch
error case of lines 310-311). -/
theorem step_ret_inv {env : PipeEnv} {watch : Bool} {s : PState} {e : Ev}
    {err : Err}
    (h : step env watch s e = some (StepOut.ret err)) :
    ∃ e0, s.errCh.head? = some e0 ∧ err = "watching dependencies: " ++ e0 := by
  cases e with
  | recv =>
    cases hfs : s.fsOpen with
    | false => rw [step_recv_closed hfs] at h; exact Option.noConfusion h
    | true =>
      cases hp : s.pending with
      | nil =>
        cases watch with
        | true => rw [step_recv_watch_empty hfs hp] at h; exact Option.noConfusion h
        | false => rw [step_recv_close hfs hp] at h; simp at h
      | cons f rest => rw [step_recv_consume hfs hp] at h; simp at h
  | taskDone i =>
    cases hget : s.futures[i]? with
    | none => rw [step_taskDone_missing hget] at h; exact Option.noConfusion h
    | some fut =>
      cases fut with
      | ready f r => rw [step_taskDone_ready hget] at h; exact Option.noConfusion h
      | pending f =>
        cases hrf : resolveFile env.renv f with
        | error e0 =>
          cases watch with
          | true => rw [step_taskDone_err_watch hget hrf] at h; simp at h
          | false => rw [step_taskDone_err_oneshot hget hrf] at h; simp at h
        | ok b => rw [step_taskDone_ok hget hrf] at h; simp at h
  | deq =>
    cases hfut : s.futures with
    | nil => rw [step_deq_nil hfut] at h; exact Option.noConfusion h
    | cons fut rest =>
      cases fut with
      | pending f => rw [step_deq_pending hfut] at h; exact Option.noConfusion h
      | ready f res =>
        cases res with
        | some b =>
          cases watch with
          | false => rw [step_deq_some_oneshot hfut] at h; simp at h
          | true =>
            cases hga : graphAddAll env (importPathsOf env f) with
            | ok u => rw [step_deq_some_watch_ok hfut hga] at h; simp at h
            | error eg => rw [step_deq_some_watch_err hfut hga] at h; simp at h
        | none => rw [step_deq_none hfut] at h; simp at h
  | werr =>
    cases hch : s.errCh with
    | nil => rw [step_werr_nil hch] at h; exact Option.noConfusion h
    | cons e0 t =>
      rw [step_werr_cons hch] at h
      simp only [Option.some.injEq, StepOut.ret.injEq] at h
      exact ⟨e0, by simp [hch], h.symm⟩

theorem runLoop_nil_end {env : PipeEnv} {watch : Bool} {s : PState}
    (hend : atEnd s = true) :
    runLoop env watch s [] = RunResult.finished s.taskErrs.head? s := by
  simp [runLoop, hend]

theorem runLoop_nil_run {env : PipeEnv} {watch : Bool} {s : PState}
    (hend : atEnd s = false) :
    runLoop env watch s [] = RunResult.running s := by
  simp [runLoop, hend]

theorem runLoop_cons_end {env : PipeEnv} {watch : Bool} {s : PState}
    {ev : Ev} {rest : List Ev} (hend : atEnd s = true) :
    runLoop env watch s (ev :: rest) = RunResult.finished s.taskErrs.head? s := by
  simp [runLoop, hend]

theorem runLoop_cons_skip {env : PipeEnv} {watch : Bool} {s : PState}
    {ev : Ev} {rest : List Ev} (hend : atEnd s = false)
    (hstep : step env watch s ev = none) :
    runLoop env watch s (ev :: rest) = runLoop env watch s rest := by
  simp [runLoop, hend, hstep]

theorem runLoop_cons_cont {env : PipeEnv} {watch : Bool} {s s2 : PState}
    {ev : Ev} {rest : List Ev} (hend : atEnd s = false)
    (hstep : step env watch s ev = some (StepOut.cont s2)) :
    runLoop env watch s (ev :: rest) = runLoop env watch s2 rest := by
  simp [runLoop, hend, hstep]

theorem runLoop_cons_ret {env : PipeEnv} {watch : Bool} {s : PState}
    {ev : Ev} {rest : List Ev} {err : Err} (hend : atEnd s = false)
    (hstep : step env watch s ev = some (StepOut.ret err)) :
    runLoop env watch s (ev :: rest) = RunResult.finished (some err) s := by
  simp [runLoop, hend, hstep]

/-- What a run of the coordinator loop guarantees about the state it reaches:
the invariant is maintained, and a finished run either exited through the
break of lines 235-239 (futures drained, fs nil, errs.Wait() returned the
first task error) or through the errCh case of lines 310-311. -/
theorem runLoop_reach {env : PipeEnv} {watch : Bool} {files : List FileId} :
    ∀ (evs : List Ev) (s : PState), Inv env watch files s →
      (∀ s', runLoop env watch s evs = RunResult.running s' →
        Inv env watch files s') ∧
      (∀ ret s', runLoop env watch s evs = RunResult.finished ret s' →
        Inv env watch files s' ∧
          ((s'.futures = [] ∧ s'.fsOpen = false ∧ ret = s'.taskErrs.head?) ∨
            (∃ e0, s'.errCh.head? = some e0 ∧
              ret = some ("watching dependencies: " ++ e0)))) := by
  intro evs
  induction evs with
  | nil =>
    intro s hI
    constructor
    · intro s' hr
      cases hend : atEnd s with
      | true => rw [runLoop_nil_end hend] at hr; exact RunResult.noConfusion hr
      | false =>
        rw [runLoop_nil_run hend] at hr
        cases hr
        exact hI
    · intro ret s' hr
      cases hend : atEnd s with
      | true =>
        rw [runLoop_nil_end hend] at hr
        cases hr
        rcases atEnd_iff.mp hend with ⟨h1, h2⟩
        exact ⟨hI, Or.inl ⟨h1, h2, rfl⟩⟩
      | false =>
        rw [runLoop_nil_run hend] at hr
        exact RunResult.noConfusion hr
  | cons ev rest ih =>
    intro s hI
    cases hend : atEnd s with
    | true =>
      constructor
      · intro s' hr
        rw [runLoop_cons_end hend] at hr
        exact RunResult.noConfusion hr
      · intro ret s' hr
        rw [runLoop_cons_end hend] at hr
        cases hr
        rcases atEnd_iff.mp hend with ⟨h1, h2⟩
        exact ⟨hI, Or.inl ⟨h1, h2, rfl⟩⟩
    | false =>
      cases hstep : step env watch s ev with
      | none =>
        constructor
        · intro s' hr
          rw [runLoop_cons_skip hend hstep] at hr
          exact (ih s hI).1 s' hr
        · intro ret s' hr
          rw [runLoop_cons_skip hend hstep] at hr
          exact (ih s hI).2 ret s' hr
      | some so =>
        cases so with
        | cont s2 =>
          constructor
          · intro s' hr
            rw [runLoop_cons_cont hend hstep] at hr
            exact (ih s2 (step_inv hI hstep)).1 s' hr
          · intro ret s' hr
            rw [runLoop_cons_cont hend hstep] at hr
            exact (ih s2 (step_inv hI hstep)).2 ret s' hr
        | ret err =>
          constructor
          · intro s' hr
            rw [runLoop_cons_ret hend hstep] at hr
            exact RunResult.noConfusion hr
          · intro ret s' hr
            rw [runLoop_cons_ret hend hstep] at hr
            cases hr
            rcases step_ret_inv hstep with ⟨e0, hch, herr⟩
            exact ⟨hI, Or.inr ⟨e0, hch, by rw [herr]⟩⟩

/-- The invariant holds initially. -/
theorem inv_init {env : PipeEnv} {watch : Bool} (files : List FileId) :
    Inv env watch files (initState files) := by
  refine ⟨rfl, ?_, ?_, ?_, ?_⟩
  · intro fut hmem
    simp [initState] at hmem
  · simp [consumedFiles, initState]
  · intro hfo
    simp [initState] at hfo
  · intro _ _ f hf
    simp [doneFiles, initState] at hf

/-- The invariant holds in the state reached by any run. -/
theorem run_inv {env : PipeEnv} {watch : Bool} {files : List FileId}
    {evs : List Ev} :
    Inv env watch files (stateOf (resolveFilesToWriter env watch files evs)) := by
  cases hr : resolveFilesToWriter env watch files evs with
  | running s' =>
    exact (runLoop_reach evs (initState files) (inv_init files)).1 s' hr
  | finished ret s' =>
    exact ((runLoop_reach evs (initState files) (inv_init files)).2 ret s' hr).1

/-- How a run can finish: through the loop break (stream closed, futures
drained, first task error returned) or through the errCh case. -/
theorem run_finished {env : PipeEnv} {watch : Bool} {files : List FileId}
    {evs : List Ev} {ret : Option Err} {s' : PState}
    (hr : resolveFilesToWriter env watch files evs = RunResult.finished ret s') :
    Inv env watch files s' ∧
      ((s'.futures = [] ∧ s'.fsOpen = false ∧ ret = s'.taskErrs.head?) ∨
        (∃ e0, s'.errCh.head? = some e0 ∧
          ret = some ("watching dependencies: " ++ e0))) :=
  (runLoop_reach evs (initState files) (inv_init files)).2 ret s' hr

theorem contains_mem {l : List String} {a : String} :
    l.contains a = true ↔ a ∈ l := by
  simp

/-- Membership in the recorded key set is membership in the underlying call
sequence (outside the already-seen accumulator). -/
theorem recordedKeys_mem {l : List String} :
    ∀ {seen : List String} {k : String},
      k ∈ recordedKeys seen l ↔ (k ∈ l ∧ ¬ k ∈ seen) := by
  induction l with
  | nil => intro seen k; simp [recordedKeys]
  | cons a rest ih =>
    intro seen k
    cases ha : seen.contains a with
    | true =>
      have ha' : a ∈ seen := contains_mem.mp ha
      rw [recordedKeys, if_pos ha, ih]
      constructor
      · rintro ⟨h1, h2⟩
        exact ⟨List.mem_cons_of_mem _ h1, h2⟩
      · rintro ⟨h1, h2⟩
        rcases List.mem_cons.mp h1 with h3 | h3
        · exact absurd (h3 ▸ ha') h2
        · exact ⟨h3, h2⟩
    | false =>
      have ha' : ¬ a ∈ seen := fun hm => by
        rw [contains_mem.mpr hm] at ha; exact Bool.noConfusion ha
      rw [recordedKeys, if_neg (by rw [ha]; exact Bool.noConfusion)]
      constructor
      · intro h1
        rcases List.mem_cons.mp h1 with h3 | h3
        · subst h3
          exact ⟨List.mem_cons_self _ _, ha'⟩
        · rcases ih.mp h3 with ⟨h4, h5⟩
          exact ⟨List.mem_cons_of_mem _ h4,
            fun hm => h5 (List.mem_cons_of_mem _ hm)⟩
      · rintro ⟨h1, h2⟩
        by_cases hk : k = a
        · subst hk
          exact List.mem_cons_self _ _
        · rcases List.mem_cons.mp h1 with h3 | h3
          · exact absurd h3 hk
          · refine List.mem_cons_of_mem _ (ih.mpr ⟨h3, fun hm => ?_⟩)
            rcases List.mem_cons.mp hm with h5 | h5
            · exact hk h5
            · exact h2 h5

/-- The recorded import-path set of a file contains exactly the keys of its
build invocations. -/
theorem importPathsOf_mem {env : PipeEnv} {f : FileId} {k : String} :
    k ∈ importPathsOf env f ↔ k ∈ env.buildCalls f := by
  simp [importPathsOf, recordedKeys_mem]

theorem smLookup_smStore (m : List (FileId × List String)) (f : FileId)
    (v : List String) : smLookup (smStore m f v) f = some v := by
  induction m with
  | nil => simp [smStore, smLookup]
  | cons p rest ih =>
    obtain ⟨k, w⟩ := p
    by_cases hk : k = f
    · simp [smStore, smLookup, hk]
    · simp [smStore, smLookup, hk, ih]

theorem cbFile_fst_mem {ss : List String} {k : FileId} {v : List String}
    {x : String} : x ∈ (cbFile ss k v).1 ↔ (x ∈ v ∧ x ∈ ss) := by
  induction v with
  | nil => simp [cbFile]
  | cons ip rest ih =>
    cases hip : ss.contains ip with
    | true =>
      have hm : ip ∈ ss := contains_mem.mp hip
      rw [cbFile, if_pos hip]
      by_cases hx : x = ip
      · subst hx; simp [hm]
      · simp [hx, ih]
    | false =>
      have hm : ¬ ip ∈ ss := fun h => by
        rw [contains_mem.mpr h] at hip; exact Bool.noConfusion hip
      rw [cbFile, if_neg (by rw [hip]; exact Bool.noConfusion)]
      by_cases hx : x = ip
      · subst hx; simp [hm, ih]
      · simp [hx, ih]

theorem cbFile_snd_mem {ss : List String} {k : FileId} {v : List String}
    {y : FileId} : y ∈ (cbFile ss k v).2 ↔ (y = k ∧ ∃ ip ∈ v, ip ∈ ss) := by
  induction v with
  | nil => simp [cbFile]
  | cons ip rest ih =>
    cases hip : ss.contains ip with
    | true =>
      have hm : ip ∈ ss := contains_mem.mp hip
      rw [cbFile, if_pos hip]
      by_cases hy : y = k
      · subst hy; simp [hm]
      · simp [hy, ih]
    | false =>
      have hm : ¬ ip ∈ ss := fun h => by
        rw [contains_mem.mpr h] at hip; exact Bool.noConfusion hip
      rw [cbFile, if_neg (by rw [hip]; exact Bool.noConfusion)]
      simp [ih, hm]

theorem watchCallback_fst_mem {ss : List String}
    {sm : List (FileId × List String)} {x : String} :
    x ∈ (watchCallback ss sm).1 ↔ ∃ p ∈ sm, x ∈ p.2 ∧ x ∈ ss := by
  induction sm with
  | nil => simp [watchCallback]
  | cons p rest ih =>
    obtain ⟨k, v⟩ := p
    rw [watchCallback]
    simp only [List.mem_append, cbFile_fst_mem, ih, List.mem_cons]
    constructor
    · rintro (⟨h1, h2⟩ | ⟨q, hq, h1, h2⟩)
      · exact ⟨(k, v), Or.inl rfl, h1, h2⟩
      · exact ⟨q, Or.inr hq, h1, h2⟩
    · rintro ⟨q, hq | hq, h1, h2⟩
      · subst hq; exact Or.inl ⟨h1, h2⟩
      · exact Or.inr ⟨q, hq, h1, h2⟩

theorem watchCallback_snd_mem {ss : List String}
    {sm : List (FileId × List String)} {y : FileId} :
    y ∈ (watchCallback ss sm).2 ↔
      ∃ p ∈ sm, p.1 = y ∧ ∃ ip ∈ p.2, ip ∈ ss := by
  induction sm with
  | nil => simp [watchCallback]
  | cons p rest ih =>
    obtain ⟨k, v⟩ := p
    rw [watchCallback]
    simp only [List.mem_append, cbFile_snd_mem, ih, List.mem_cons]
    constructor
    · rintro (⟨h1, h2⟩ | ⟨q, hq, h1, h2⟩)
      · exact ⟨(k, v), Or.inl rfl, h1.symm, h2⟩
      · exact ⟨q, Or.inr hq, h1, h2⟩
    · rintro ⟨q, hq | hq, h1, h2⟩
      · subst hq; exact Or.inl ⟨h1.symm, h2⟩
      · exact Or.inr ⟨q, hq, h1, h2⟩

/-- Whether MatchesSelector keeps a document (returns true without error). -/
def keepDoc (env : ResolveEnv) (s : Selector) (d : Doc) : Bool :=
  match env.matchesSelector s d with
  | Except.ok true => true
  | _ => false

/-- With no selector, the decode loop keeps every document. -/
theorem filterBySelector_none (env : ResolveEnv) :
    ∀ docs : List Doc, filterBySelector env none docs = Except.ok docs := by
  intro docs
  induction docs with
  | nil => rfl
  | cons d rest ih => rw [filterBySelector, ih]

/-- With a selector, a successful filter pass keeps exactly the documents
the selector matches, dropping the others. -/
theorem filterBySelector_some (env : ResolveEnv) (s : Selector) :
    ∀ (docs out : List Doc),
      filterBySelector env (some s) docs = Except.ok out →
      out = docs.filter (keepDoc env s) := by
  intro docs
  induction docs with
  | nil =>
    intro out h
    rw [filterBySelector] at h
    cases h
    rfl
  | cons d rest ih =>
    intro out h
    rw [filterBySelector] at h
    cases hm : env.matchesSelector s d with
    | error e =>
      rw [hm] at h
      exact Except.noConfusion h
    | ok tv =>
      rw [hm] at h
      cases tv with
      | true =>
        cases hrec : filterBySelector env (some s) rest with
        | error e =>
          rw [hrec] at h
          exact Except.noConfusion h
        | ok tail =>
          rw [hrec] at h
          cases h
          rw [List.filter_cons_of_pos (by simp [keepDoc, hm]), ih tail hrec]
      | false =>
        rw [List.filter_cons_of_neg (by simp [keepDoc, hm])]
        exact ih out h

/-- Inversion of a successful resolveFile run into its pipeline of stages. -/
theorem resolveFile_ok_inv {env : ResolveEnv} {f : FileId} {b : Bytes}
    (h : resolveFile env f = Except.ok b) :
    ∃ sel content docs survivors resolved,
      parseSelectorOpt env = Except.ok sel ∧
      readContent env f = Except.ok content ∧
      env.decodeYaml content = Except.ok docs ∧
      filterBySelector env sel docs = Except.ok survivors ∧
      env.imageReferences env.strict survivors = Except.ok resolved ∧
      env.encodeYaml 2 resolved = Except.ok b := by
  rw [resolveFile] at h
  split at h
  · exact Except.noConfusion h
  · rename_i sel h1
    split at h
    · exact Except.noConfusion h
    · rename_i content h2
      split at h
      · exact Except.noConfusion h
      · rename_i docs h3
        split at h
        · exact Except.noConfusion h
        · rename_i survivors h4
          split at h
          · exact Except.noConfusion h
          · rename_i resolved h5
            split at h
            · exact Except.noConfusion h
            · rename_i out h6
              cases h
              exact ⟨sel, content, docs, survivors, resolved,
                h1, h2, h3, h4, h5, h6⟩

/-- In one-shot mode, a run that finished after dequeuing a file whose
resolution fails returns a non-nil error. -/
theorem fatal_if_failed {env : PipeEnv} {files : List FileId} {evs : List Ev}
    {ret : Option Err} {s' : PState} {f : FileId}
    (hrun : resolveFilesToWriter env false files evs = RunResult.finished ret s')
    (hmem : f ∈ s'.dq)
    (hfail : ∀ b, ¬ resolveFile env.renv f = Except.ok b) :
    ¬ ret = none := by
  rcases run_finished hrun with ⟨hI, hcase | hcase⟩
  · rcases hcase with ⟨_, _, hret⟩
    intro hn
    rw [hn] at hret
    have ht : s'.taskErrs = [] := by
      cases hte : s'.taskErrs with
      | nil => rfl
      | cons a t =>
        rw [hte] at hret
        exact Option.noConfusion hret
    rcases hI.errs_clear rfl ht f
        (by simp only [doneFiles, List.mem_append]; exact Or.inl hmem) with ⟨b, hb⟩
    exact hfail b hb
  · rcases hcase with ⟨e0, _, hret⟩
    intro hn
    rw [hn] at hret
    exact Option.noConfusion hret

/-- Concrete resolution environment: reading "bad.yaml" fails, every other
file resolves successfully to the block "block". -/
def okREnv : ResolveEnv where
  selector := ""
  strict := false
  parseSelector := fun _ => Except.error "unused"
  stdin := Except.ok "stdin-bytes"
  readFile := fun f =>
    if f = "bad.yaml" then Except.error "corrupt" else Except.ok ("raw:" ++ f)
  decodeYaml := fun _ => Except.ok [0]
  matchesSelector := fun _ _ => Except.ok true
  imageReferences := fun _ ds => Except.ok ds
  encodeYaml := fun _ _ => Except.ok "block"

/-- Concrete pipeline environment over okREnv, with a duplicated build
invocation to exercise the recorder. -/
def okPipe : PipeEnv where
  renv := okREnv
  buildCalls := fun _ => ["example.com/app", "example.com/app", "example.com/lib"]
  graphAdd := fun _ => Except.ok ()

/-- Concrete resolution environment whose selector string does not parse. -/
def selREnv : ResolveEnv where
  selector := "a=&&b"
  strict := false
  parseSelector := fun _ => Except.error "invalid selector syntax"
  stdin := Except.ok ""
  readFile := fun _ => Except.ok "raw"
  decodeYaml := fun _ => Except.ok [0]
  matchesSelector := fun _ _ => Except.ok true
  imageReferences := fun _ ds => Except.ok ds
  encodeYaml := fun _ _ => Except.ok "block"

/-- Pipeline environment over selREnv. -/
def selPipe : PipeEnv where
  renv := selREnv
  buildCalls := fun _ => []
  graphAdd := fun _ => Except.ok ()

/-- okREnv with unreadable standard input. -/
def stdinErrEnv : ResolveEnv :=
  { okREnv with stdin := Except.error "stdin unavailable" }

/-- The final state of a run over an empty file list. -/
def endSt : PState where
  pending := []
  fsOpen := false
  futures := []
  dq := []
  output := []
  sm := []
  taskErrs := []
  logged := []
  errCh := []

/-- A state with one launched, still-running task for "bad.yaml". -/
def sPendBad : PState :=
  { endSt with fsOpen := true, futures := [Fut.pending "bad.yaml"] }

/-- A state with one launched, still-running task for "good.yaml". -/
def sPendGood : PState :=
  { endSt with fsOpen := true, futures := [Fut.pending "good.yaml"] }

/-- Schedule for the two-file one-shot run: consume both files, observe the
stream close, let both tasks finish, dequeue both futures. -/
def c6Evs : List Ev :=
  [Ev.recv, Ev.recv, Ev.recv, Ev.taskDone 0, Ev.taskDone 1, Ev.deq, Ev.deq]

/-- Final state of the two-file one-shot run in which "bad.yaml" fails and
"good.yaml" succeeds. -/
def c6End : PState where
  pending := []
  fsOpen := false
  futures := []
  dq := ["bad.yaml", "good.yaml"]
  output := ["block\n---\n"]
  sm := [("good.yaml", ["example.com/app", "example.com/lib"])]
  taskErrs := [wrapErr "bad.yaml" "corrupt"]
  logged := []
  errCh := []

/-- State reached by the watch-mode run over "f.yaml" with an unparsable
selector: the error is only logged, the run is still alive. -/
def c8End : PState where
  pending := []
  fsOpen := true
  futures := []
  dq := ["f.yaml"]
  output := []
  sm := []
  taskErrs := []
  logged := [wrapErr "f.yaml" "unable to parse selector: invalid selector syntax"]
  errCh := []

/-- C1: for every run of the pipeline (resolveFilesToWriter) over any
sequence of input file identifiers and any schedule of task completions,
the blocks written to the sink are exactly the blocks of the dequeued files
in their dequeue order, the dequeued files are a prefix of the consumed
files, and the consumed files are a prefix of the input sequence in input
order; hence output order equals consumption order regardless of the order
in which per-file resolution tasks complete. -/
theorem output_in_consumption_order (env : PipeEnv) (watch : Bool)
    (files : List FileId) (evs : List Ev) :
    (stateOf (resolveFilesToWriter env watch files evs)).output =
      ((stateOf (resolveFilesToWriter env watch files evs)).dq).filterMap
        (blockOf env) ∧
    files =
      ((stateOf (resolveFilesToWriter env watch files evs)).dq ++
          (stateOf (resolveFilesToWriter env watch files evs)).futures.map
            futFile) ++
        (stateOf (resolveFilesToWriter env watch files evs)).pending := by
  have hI : Inv env watch files
      (stateOf (resolveFilesToWriter env watch files evs)) := run_inv
  exact ⟨hI.out_eq, hI.files_eq⟩

/-- C2: for every file whose resolution returns an error, in watch mode the
task logs the wrapped error, reports no error to the errgroup, and closes
its future without a value (blockOf is none, so nothing is written for it
and the loop continues); in non-watch mode the task returns the wrapped
error to the errgroup and any finished run that dequeued that file returns
a non-nil error. -/
theorem per_file_error_watch_skip_oneshot_fatal (env : PipeEnv) (f : FileId)
    (e : Err) (s : PState) (i : Nat)
    (hget : s.futures[i]? = some (Fut.pending f))
    (hrf : resolveFile env.renv f = Except.error e) :
    step env true s (Ev.taskDone i) = some (StepOut.cont { s with
      futures := s.futures.set i (Fut.ready f none),
      logged := s.logged ++ [wrapErr f e] }) ∧
    blockOf env f = none ∧
    step env false s (Ev.taskDone i) = some (StepOut.cont { s with
      futures := s.futures.set i (Fut.ready f none),
      taskErrs := s.taskErrs ++ [wrapErr f e] }) ∧
    (∀ files evs ret s',
      resolveFilesToWriter env false files evs = RunResult.finished ret s' →
      f ∈ s'.dq → ¬ ret = none) := by
  refine ⟨step_taskDone_err_watch hget hrf, blockOf_err hrf,
    step_taskDone_err_oneshot hget hrf, ?_⟩
  intro files evs ret s' hr hmem
  refine fatal_if_failed hr hmem (fun b hb => ?_)
  rw [hrf] at hb
  exact Except.noConfusion hb

/-- Witness for C2 at a concrete failing file in watch mode. -/
theorem per_file_error_witness :
    step okPipe true sPendBad (Ev.taskDone 0) = some (StepOut.cont { sPendBad with
      futures := sPendBad.futures.set 0 (Fut.ready "bad.yaml" none),
      logged := sPendBad.logged ++ [wrapErr "bad.yaml" "corrupt"] }) :=
  (per_file_error_watch_skip_oneshot_fatal okPipe "bad.yaml" "corrupt"
    sPendBad 0 rfl rfl).1

/-- C3: the watch callback invalidates exactly the recorded keys that are in
the changed set (a key outside the changed set is never invalidated) and
resends exactly the files one of whose recorded keys is in the changed set;
at the spec's example, recorded set A,B and changed set A invalidate only A
and resend only that file. -/
theorem watch_callback_invalidates_and_resubmits
    (sm : List (FileId × List String)) (ss : List String) :
    (∀ k, k ∈ (watchCallback ss sm).1 ↔ ∃ p ∈ sm, k ∈ p.2 ∧ k ∈ ss) ∧
    (∀ f, f ∈ (watchCallback ss sm).2 ↔
      ∃ p ∈ sm, p.1 = f ∧ ∃ ip ∈ p.2, ip ∈ ss) ∧
    (∀ k, ¬ k ∈ ss → ¬ k ∈ (watchCallback ss sm).1) ∧
    watchCallback ["A"] [("f.yaml", ["A", "B"])] = (["A"], ["f.yaml"]) := by
  refine ⟨fun k => watchCallback_fst_mem, fun f => watchCallback_snd_mem,
    ?_, rfl⟩
  intro k hk hmem
  rcases watchCallback_fst_mem.mp hmem with ⟨p, _, _, h2⟩
  exact hk h2

/-- Witness for C3: the unchanged key B is not invalidated. -/
theorem watch_callback_witness :
    ¬ "B" ∈ (watchCallback ["A"] [("f.yaml", ["A", "B"])]).1 :=
  (watch_callback_invalidates_and_resubmits [("f.yaml", ["A", "B"])]
    ["A"]).2.2.1 "B" (by decide)

/-- C4: a finished run either exited through the loop break, which happens
exactly when the input stream is exhausted (pending empty and fs nil) and
the future sequence is empty, returning the first error observed from any
launched task (nil if none); or it returned early with a watch error from
errCh, which is never a nil return. -/
theorem run_returns_only_when_drained (env : PipeEnv) (watch : Bool)
    (files : List FileId) (evs : List Ev) (ret : Option Err) (s' : PState)
    (hr : resolveFilesToWriter env watch files evs = RunResult.finished ret s') :
    (s'.pending = [] ∧ s'.fsOpen = false ∧ s'.futures = [] ∧
      ret = s'.taskErrs.head?) ∨
    (∃ e0, s'.errCh.head? = some e0 ∧
      ret = some ("watching dependencies: " ++ e0)) := by
  rcases run_finished hr with ⟨hI, hc | hc⟩
  · rcases hc with ⟨h1, h2, h3⟩
    exact Or.inl ⟨hI.closed_pending h2, h2, h1, h3⟩
  · exact Or.inr hc

/-- Witness for C4 at the concrete empty one-shot run. -/
theorem run_returns_witness :
    (endSt.pending = [] ∧ endSt.fsOpen = false ∧ endSt.futures = [] ∧
      (none : Option Err) = endSt.taskErrs.head?) ∨
    (∃ e0, endSt.errCh.head? = some e0 ∧
      (none : Option Err) = some ("watching dependencies: " ++ e0)) :=
  run_returns_only_when_drained okPipe false [] [Ev.recv] none endSt rfl

/-- C5: the select of the coordinator waits on the fs case whenever fs is
non-nil, waits on the head-future case whenever futures remain even after
fs closed, never includes the head-future case when the future sequence is
empty (bf is nil), never includes the fs case after the stream closed (fs
is nil), and an event can only fire when its source is among the waited-on
sources. -/
theorem select_waits_only_on_valid_sources (env : PipeEnv) (watch : Bool)
    (s : PState) :
    (s.fsOpen = true → Src.fsSrc ∈ selectSources watch s) ∧
    (s.fsOpen = false → ¬ s.futures = [] →
      Src.headSrc ∈ selectSources watch s) ∧
    (s.futures = [] → ¬ Src.headSrc ∈ selectSources watch s) ∧
    (s.fsOpen = false → ¬ Src.fsSrc ∈ selectSources watch s) ∧
    (∀ r, step env watch s Ev.recv = some r →
      Src.fsSrc ∈ selectSources watch s) ∧
    (∀ r, step env watch s Ev.deq = some r →
      Src.headSrc ∈ selectSources watch s) := by
  refine ⟨?_, ?_, ?_, ?_, ?_, ?_⟩
  · intro h
    cases watch <;> simp [selectSources, h]
  · intro h1 h2
    cases hfut : s.futures with
    | nil => exact absurd hfut h2
    | cons a t => cases watch <;> simp [selectSources, h1, hfut]
  · intro h
    cases hfs : s.fsOpen <;> cases watch <;> simp [selectSources, h, hfs]
  · intro h
    cases hfut : s.futures <;> cases watch <;> simp [selectSources, h, hfut]
  · intro r h
    cases hfs : s.fsOpen with
    | true => cases watch <;> simp [selectSources, hfs]
    | false =>
      rw [step_recv_closed hfs] at h
      exact Option.noConfusion h
  · intro r h
    cases hfut : s.futures with
    | nil =>
      rw [step_deq_nil hfut] at h
      exact Option.noConfusion h
    | cons a t => cases hfs : s.fsOpen <;> cases watch <;>
        simp [selectSources, hfut, hfs]

/-- Witness for C5 at a concrete initial state. -/
theorem select_sources_witness :
    Src.fsSrc ∈ selectSources false (initState ["a.yaml"]) :=
  (select_waits_only_on_valid_sources okPipe false (initState ["a.yaml"])).1 rfl

/-- C6 counterexample: in one-shot mode with "bad.yaml" failing and the
later file "good.yaml" succeeding, the run does return the failure, but the
sink still receives the block of "good.yaml", a file after the failing file
in submission order — refuting the claim that no output block is written
for any file after the failing one. -/
theorem oneshot_partial_output_counterexample :
    resolveFilesToWriter okPipe false ["bad.yaml", "good.yaml"] c6Evs =
      RunResult.finished (some (wrapErr "bad.yaml" "corrupt")) c6End ∧
    c6End.output = ["block\n---\n"] ∧
    blockOf okPipe "good.yaml" = some "block\n---\n" ∧
    c6End.dq = ["bad.yaml", "good.yaml"] :=
  ⟨rfl, rfl, rfl, rfl⟩

/-- C6 as amended: in one-shot mode, when a dequeued file's resolution
fails, a finished run returns a non-nil error (the run aborts with a
non-zero outcome); blocks of other files that resolved successfully may
still have been written. -/
theorem oneshot_failure_returns_error (env : PipeEnv) (files : List FileId)
    (evs : List Ev) (ret : Option Err) (s' : PState) (f : FileId)
    (hr : resolveFilesToWriter env false files evs = RunResult.finished ret s')
    (hmem : f ∈ s'.dq)
    (hfail : ∀ b, ¬ resolveFile env.renv f = Except.ok b) :
    ¬ ret = none :=
  fatal_if_failed hr hmem hfail

/-- Witness for the amended C6 at the concrete two-file run. -/
theorem oneshot_failure_witness :
    ¬ (some (wrapErr "bad.yaml" "corrupt") : Option Err) = none :=
  oneshot_failure_returns_error okPipe ["bad.yaml", "good.yaml"] c6Evs
    (some (wrapErr "bad.yaml" "corrupt")) c6End "bad.yaml" rfl
    (by decide)
    (fun b hb => by
      have hb' : (Except.error "corrupt" : Except Err Bytes) = Except.ok b := hb
      exact Except.noConfusion hb')

/-- C7: when a file's resolution succeeds, the task stores in the
filename-to-import-paths map exactly the recorder's accumulated import
paths, and membership in that recorded set coincides with membership in
the sequence of build invocations actually made while resolving the file
(the recorder observes only actual Build calls, deduplicated in insertion
order). The recorder itself (build.Recorder) is modelled from the spec,
its source not being under src/. -/
theorem recorded_import_paths_match_build_calls (env : PipeEnv) (watch : Bool)
    (s : PState) (i : Nat) (f : FileId) (b : Bytes)
    (hget : s.futures[i]? = some (Fut.pending f))
    (hrf : resolveFile env.renv f = Except.ok b) :
    step env watch s (Ev.taskDone i) = some (StepOut.cont { s with
      sm := smStore s.sm f (importPathsOf env f),
      futures := s.futures.set i (Fut.ready f (some b)) }) ∧
    smLookup (smStore s.sm f (importPathsOf env f)) f =
      some (importPathsOf env f) ∧
    (∀ k, k ∈ importPathsOf env f ↔ k ∈ env.buildCalls f) :=
  ⟨step_taskDone_ok hget hrf, smLookup_smStore _ _ _,
    fun _ => importPathsOf_mem⟩

/-- Witness for C7 at a concrete successful file with a duplicated
build invocation. -/
theorem recorded_import_paths_witness :
    ("example.com/lib" ∈ importPathsOf okPipe "good.yaml" ↔
      "example.com/lib" ∈ okPipe.buildCalls "good.yaml") :=
  (recorded_import_paths_match_build_calls okPipe false sPendGood 0
    "good.yaml" "block" rfl rfl).2.2 "example.com/lib"

/-- C8 counterexample: with an unparsable selector, a watch-mode run over
one file reaches a state where the selector error has been detected only
inside that file's resolution (it appears as a logged per-file error naming
the file), nothing fatal happened (no task error, no errCh entry, the run
is still alive) — refuting both that selector syntax errors are detected
before any file processing starts and that they are always fatal in every
run mode. -/
theorem invalid_selector_watch_counterexample :
    resolveFilesToWriter selPipe true ["f.yaml"]
        [Ev.recv, Ev.taskDone 0, Ev.deq] = RunResult.running c8End ∧
    c8End.output = [] ∧ c8End.taskErrs = [] ∧ c8End.errCh = [] ∧
    c8End.logged =
      [wrapErr "f.yaml" "unable to parse selector: invalid selector syntax"] :=
  ⟨rfl, rfl, rfl, rfl, rfl⟩

/-- C8 as amended: invalid selector syntax is detected during each file's
resolution (labels.Parse runs at the start of resolveFile, per file, not
before processing starts); the resulting error is a per-file error, fatal
in one-shot mode, but in watch mode it is logged and the file skipped. -/
theorem invalid_selector_per_file (env : PipeEnv) (f : FileId) (e : Err)
    (hne : ¬ env.renv.selector = "")
    (hp : env.renv.parseSelector env.renv.selector = Except.error e) :
    resolveFile env.renv f = Except.error ("unable to parse selector: " ++ e) ∧
    (∀ s i, s.futures[i]? = some (Fut.pending f) →
      step env true s (Ev.taskDone i) = some (StepOut.cont { s with
        futures := s.futures.set i (Fut.ready f none),
        logged := s.logged ++
          [wrapErr f ("unable to parse selector: " ++ e)] })) ∧
    (∀ files evs ret s',
      resolveFilesToWriter env false files evs = RunResult.finished ret s' →
      f ∈ s'.dq → ¬ ret = none) := by
  have hsel : resolveFile env.renv f =
      Except.error ("unable to parse selector: " ++ e) := by
    rw [resolveFile, parseSelectorOpt, if_neg hne, hp]
  refine ⟨hsel, fun s i hget => step_taskDone_err_watch hget hsel, ?_⟩
  intro files evs ret s' hr hmem
  refine fatal_if_failed hr hmem (fun b hb => ?_)
  rw [hsel] at hb
  exact Except.noConfusion hb

/-- Witness for the amended C8 at the concrete unparsable selector. -/
theorem invalid_selector_witness :
    resolveFile selPipe.renv "f.yaml" =
      Except.error ("unable to parse selector: " ++ "invalid selector syntax") :=
  (invalid_selector_per_file selPipe "f.yaml" "invalid selector syntax"
    (by decide) rfl).1

/-- C9: a successful resolution of a file decomposes into reading, decoding,
selector filtering, reference resolution and serialization with indent 2,
and the block the pipeline writes for it is those bytes followed by the
fixed separator; moreover a successful filter pass with a selector keeps
exactly the matching documents (non-matching documents dropped entirely)
and without a selector keeps all documents. -/
theorem resolved_block_encoding (env : PipeEnv) (f : FileId) (b : Bytes)
    (h : resolveFile env.renv f = Except.ok b) :
    (∃ sel content docs survivors resolved,
      parseSelectorOpt env.renv = Except.ok sel ∧
      readContent env.renv f = Except.ok content ∧
      env.renv.decodeYaml content = Except.ok docs ∧
      filterBySelector env.renv sel docs = Except.ok survivors ∧
      env.renv.imageReferences env.renv.strict survivors =
        Except.ok resolved ∧
      env.renv.encodeYaml 2 resolved = Except.ok b) ∧
    (∀ s docs out,
      filterBySelector env.renv (some s) docs = Except.ok out →
      out = docs.filter (keepDoc env.renv s)) ∧
    (∀ docs, filterBySelector env.renv none docs = Except.ok docs) ∧
    blockOf env f = some (b ++ "\n---\n") :=
  ⟨resolveFile_ok_inv h, fun s => filterBySelector_some env.renv s,
    filterBySelector_none env.renv, blockOf_ok h⟩

/-- Witness for C9 at a concrete successful file. -/
theorem resolved_block_witness :
    blockOf okPipe "good.yaml" = some ("block" ++ "\n---\n") :=
  (resolved_block_encoding okPipe "good.yaml" "block" rfl).2.2.2

/-- C10: the identifier "-" reads standard input (the result does not
depend on the filesystem), every other identifier reads the file at that
path, and a read failure fails that file's resolution with the read error. -/
theorem read_source_selection (env : ResolveEnv) (f : FileId) :
    readContent env "-" = env.stdin ∧
    (¬ f = "-" → readContent env f = env.readFile f) ∧
    (∀ sel e, parseSelectorOpt env = Except.ok sel →
      readContent env f = Except.error e →
      resolveFile env f = Except.error e) := by
  refine ⟨rfl, fun hne => ?_, ?_⟩
  · rw [readContent, if_neg hne]
  · intro sel e hp hread
    rw [resolveFile, hp, hread]

/-- Witness for C10: with stdin unreadable, resolving "-" fails with the
stdin read error. -/
theorem read_source_witness :
    resolveFile stdinErrEnv "-" = Except.error "stdin unavailable" :=
  (read_source_selection stdinErrEnv "-").2.2 none "stdin unavailable" rfl rfl

end Ko
